import Mathlib

/-!
Shallow embedding of the hexflower repository (axial hex coordinates,
sparse hex grid, ring and spiral traversal, biome tables, snowflake
generator, connected-chain builder and concentric meta builder),
together with theorems settling the specification claims.
-/

/-- Axial hex coordinate (q, r), pointy-top orientation (hex.py, class Hex). -/
structure Hex where
  q : ℤ
  r : ℤ
deriving DecidableEq

/-- The canonical direction table DIRS from hex.py:
E, NE, NW, W, SW, SE in this order. -/
def DIRS : List (ℤ × ℤ) := [(1, 0), (1, -1), (0, -1), (-1, 0), (-1, 1), (0, 1)]

/-- Python sequence indexing with an integer index: nonnegative indices
index from the front, indices in [-len, -1] wrap around from the back,
anything else is an IndexError (modelled as none). -/
def pyGet {α : Type _} (l : List α) (i : ℤ) : Option α :=
  if 0 ≤ i then l.get? i.toNat
  else if 0 ≤ i + l.length then l.get? (i + l.length).toNat
  else none

/-- Hex.neighbor from hex.py: looks up DIRS with Python indexing semantics
and offsets the coordinate; none models the IndexError raised when the
index is out of the valid Python range. -/
def Hex.neighbor (h : Hex) (i : ℤ) : Option Hex :=
  (pyGet DIRS i).map (fun d => ⟨h.q + d.1, h.r + d.2⟩)

/-- Total direction lookup for indices 0..5, used where the source
indexes DIRS with an index that is in range by construction
(neighbors(), ring sides, scale_dir calls). -/
def dirAt (i : ℕ) : ℤ × ℤ := DIRS.getD i (0, 0)

/-- One step in direction i (0..5); the in-range case of Hex.neighbor. -/
def Hex.step (h : Hex) (i : ℕ) : Hex := ⟨h.q + (dirAt i).1, h.r + (dirAt i).2⟩

/-- Hex.neighbors from hex.py: all six neighbors in direction order 0..5. -/
def Hex.neighbors (h : Hex) : List Hex := (List.range 6).map h.step

/-- Hex.add from hex.py. -/
def Hex.add (h : Hex) (dq dr : ℤ) : Hex := ⟨h.q + dq, h.r + dr⟩

/-- Hex.scale_dir from hex.py: k steps along direction i. -/
def Hex.scaleDir (h : Hex) (i : ℕ) (k : ℤ) : Hex :=
  ⟨h.q + (dirAt i).1 * k, h.r + (dirAt i).2 * k⟩

/-- Hex.distance from hex.py: max(|dq|, |dr|, |d(q+r)|), as an integer. -/
def Hex.distance (a b : Hex) : ℤ :=
  (Nat.max (a.q - b.q).natAbs
    (Nat.max (a.r - b.r).natAbs ((a.q + a.r) - (b.q + b.r)).natAbs) : ℕ)

/-! ## HexGrid (grid.py): sparse mapping Hex to Biome, modelled as an
insertion-ordered association list with Python dict semantics: set
replaces the value of an existing key in place, otherwise appends. -/

/-- Biome labels are plain strings (tables.py, grid.py). -/
abbrev Biome := String

/-- Dict-style insert: replace in place if the key is present, else append.
This is exactly the observable behavior of writing to a Python dict. -/
def setCells : List (Hex × Biome) → Hex → Biome → List (Hex × Biome)
  | [], h, v => [(h, v)]
  | p :: rest, h, v => if p.1 = h then (h, v) :: rest else p :: setCells rest h v

/-- Dict-style lookup (first entry with the key; keys are unique in grids
produced by the code). -/
def getCells : List (Hex × Biome) → Hex → Option Biome
  | [], _ => none
  | p :: rest, h => if p.1 = h then some p.2 else getCells rest h

/-- HexGrid from grid.py: the underlying dict, as its insertion-ordered
entry list. -/
structure HexGrid where
  cells : List (Hex × Biome)
deriving DecidableEq

def HexGrid.empty : HexGrid := ⟨[]⟩

/-- HexGrid.get. -/
def HexGrid.get (g : HexGrid) (h : Hex) : Option Biome := getCells g.cells h

/-- HexGrid.set. -/
def HexGrid.set (g : HexGrid) (h : Hex) (v : Biome) : HexGrid :=
  ⟨setCells g.cells h v⟩

/-- HexGrid.keys (dict key order = insertion order). -/
def HexGrid.keys (g : HexGrid) : List Hex := g.cells.map Prod.fst

/-- len(grid). -/
def HexGrid.size (g : HexGrid) : ℕ := g.cells.length

/-- HexGrid.update: self._cells.update(other._cells), i.e. write every
entry of other into self in order (overwrite semantics). -/
def HexGrid.update (g other : HexGrid) : HexGrid :=
  ⟨other.cells.foldl (fun acc p => setCells acc p.1 p.2) g.cells⟩

/-- HexGrid.is_disjoint: no common key. -/
def HexGrid.isDisjoint (g other : HexGrid) : Bool :=
  g.cells.all (fun p => !(other.keys.contains p.1))

/-- HexGrid.touches: some key of self is edge-adjacent to some key of other. -/
def HexGrid.touches (g other : HexGrid) : Bool :=
  g.cells.any (fun p => p.1.neighbors.any (fun nb => other.keys.contains nb))

/-- HexGrid.translate: fresh grid with every cell shifted by (dq, dr). -/
def HexGrid.translate (g : HexGrid) (dq dr : ℤ) : HexGrid :=
  ⟨g.cells.foldl (fun acc p => setCells acc (p.1.add dq dr) p.2) []⟩

/-- Well-formedness every Python dict has by construction: no duplicate keys. -/
def HexGrid.WF (g : HexGrid) : Prop := g.keys.Nodup

/-! ## Random source: an abstract stream of natural-number draws with a
position, covering every possible state of the PRNG. randint and choice
each consume one draw. -/

structure Rng where
  stream : ℕ → ℕ
  pos : ℕ

/-- Consume one raw draw. -/
def Rng.next (rng : Rng) : ℕ × Rng :=
  (rng.stream rng.pos, ⟨rng.stream, rng.pos + 1⟩)

/-- rng.randint(a, b): a uniform integer in [a, b] (modelled as the next
draw reduced mod the interval size). -/
def Rng.randint (rng : Rng) (a b : ℤ) : ℤ × Rng :=
  let (x, rng1) := rng.next
  (a + (x : ℤ) % (b - a + 1), rng1)

/-- rng.choice(seq): a uniform element of a nonempty sequence; none models
the IndexError raised on an empty sequence. -/
def Rng.choice {α : Type _} (rng : Rng) (l : List α) : Option (α × Rng) :=
  let (x, rng1) := rng.next
  match l.get? (x % l.length) with
  | some a => some (a, rng1)
  | none => none

/-! ## BiomeTables (tables.py). -/

/-- BiomeTables.start_biome: d10 mapped by fixed ranges. -/
def startBiome (rng : Rng) : Biome × Rng :=
  let (x, rng1) := rng.randint 1 10
  (if 1 ≤ x ∧ x ≤ 4 then "grassland"
   else if 5 ≤ x ∧ x ≤ 6 then "forest"
   else if 7 ≤ x ∧ x ≤ 8 then "hills"
   else if x = 9 then "marsh"
   else "mountains", rng1)

/-- BiomeTables.next_biome: d10, 1-5 repeats the previous biome. -/
def nextBiome (prev : Biome) (rng : Rng) : Biome × Rng :=
  let (x, rng1) := rng.randint 1 10
  (if 1 ≤ x ∧ x ≤ 5 then prev
   else if x = 6 then "grassland"
   else if x = 7 then "forest"
   else if x = 8 then "hills"
   else if x = 9 then "marsh"
   else "mountains", rng1)

/-! ## HexTraversal (traversal.py). -/

/-- The loop body of HexTraversal.ring for a nonnegative radius: start at
SW * radius (direction index 4), then six sides, each walking radius steps
in the direction whose index is the side number, appending before stepping. -/
def ringList (center : Hex) (radius : ℕ) : List Hex :=
  if radius = 0 then [center]
  else
    ((List.range 6).foldl
      (fun st side =>
        (List.range radius).foldl
          (fun st _ => (st.1.step side, st.2 ++ [st.1])) st)
      (center.scaleDir 4 radius, [])).2

/-- HexTraversal.ring including the negative-radius ValueError. -/
def ring (center : Hex) (radius : ℤ) : Except String (List Hex) :=
  if radius < 0 then .error "radius must be >= 0"
  else .ok (ringList center radius.toNat)

/-- The Python list range(a, b) of integers. -/
def intRange (a b : ℤ) : List ℤ :=
  (List.range (b - a).toNat).map (fun (i : ℕ) => a + (i : ℤ))

/-- HexTraversal.spiral: extend over rings r = 0 .. radius, propagating any
error from ring. For a negative radius the Python loop range(0, radius+1)
is empty, so the result is ok [] with no error raised. -/
def spiral (center : Hex) (radius : ℤ) : Except String (List Hex) :=
  (intRange 0 (radius + 1)).foldlM
    (fun out r => do
      let l ← ring center r
      pure (out ++ l))
    []

/-- The pure spiral sequence for a nonnegative radius: rings 0 .. radius
concatenated, center first. -/
def spiralList (center : Hex) (radius : ℕ) : List Hex :=
  (List.range (radius + 1)).foldl (fun out r => out ++ ringList center r) []

/-- The start corner of ring segment s: segment 0 starts at the center
shifted radius steps south-west (direction 4), and each later segment
starts where the previous segment ends after its radius steps. -/
def segStart (center : Hex) (radius : ℕ) : ℕ → Hex
  | 0 => center.scaleDir 4 radius
  | s + 1 => (segStart center radius s).scaleDir s radius

/-- Segment s of the ring: radius coordinates stepping in direction s from
the segment start. -/
def ringSeg (center : Hex) (radius : ℕ) (s : ℕ) : List Hex :=
  (List.range radius).map (fun (t : ℕ) => (segStart center radius s).scaleDir s (t : ℤ))

/-- Explicit coordinates of the ring points, segment by segment. -/
def ringPoint (center : Hex) (radius : ℕ) (s t : ℕ) : Hex :=
  match s with
  | 0 => ⟨center.q - radius + t, center.r + radius⟩
  | 1 => ⟨center.q + t, center.r + radius - t⟩
  | 2 => ⟨center.q + radius, center.r - t⟩
  | 3 => ⟨center.q + radius - t, center.r - radius⟩
  | 4 => ⟨center.q - t, center.r - radius + t⟩
  | _ => ⟨center.q - radius, center.r + t⟩

/-! ## SnowflakeHexflowerGenerator (generators.py). -/

/-- SnowflakeHexflowerGenerator._choose_inward_neighbor: prefer the first
already-generated neighbor exactly one step closer to the center, else the
first already-generated neighbor, scanning neighbors in direction order. -/
def chooseInwardNeighbor (target center : Hex) (grid : HexGrid) : Option Hex :=
  let distTarget := target.distance center
  let inwardCandidates := target.neighbors.filter
    (fun nb => (grid.get nb).isSome && nb.distance center == distTarget - 1)
  match inwardCandidates with
  | c :: _ => some c
  | [] => target.neighbors.find? (fun nb => (grid.get nb).isSome)

/-- One iteration of the ring fill loop in generate: pick the predecessor,
then write either a fresh start biome (defensive fallback) or the
next-biome transition from the predecessor biome. A Python falsy stored
value (empty string) would also fall back to grassland, mirroring the
expression grid.get(prev_hex) or grassland. -/
def fillCell (center : Hex) (st : HexGrid × Rng) (h : Hex) : HexGrid × Rng :=
  match chooseInwardNeighbor h center st.1 with
  | none =>
    let (b, rng1) := startBiome st.2
    (st.1.set h b, rng1)
  | some prev =>
    let prevBiome := match st.1.get prev with
      | some b => if b = "" then "grassland" else b
      | none => "grassland"
    let (b, rng1) := nextBiome prevBiome st.2
    (st.1.set h b, rng1)

/-- The body of SnowflakeHexflowerGenerator.generate for a nonnegative
radius: set the center biome, then fill rings 1 .. radius in ring order. -/
def generateCore (center : Hex) (radius : ℕ) (rng : Rng) : HexGrid × Rng :=
  (List.range radius).foldl
    (fun st i => (ringList center (i + 1)).foldl (fillCell center) st)
    (HexGrid.empty.set center (startBiome rng).1, (startBiome rng).2)

/-- SnowflakeHexflowerGenerator.generate including the negative-radius
ValueError. -/
def generate (center : Hex) (radius : ℤ) (rng : Rng) :
    Except String (HexGrid × Rng) :=
  if radius < 0 then .error "radius must be >= 0"
  else .ok (generateCore center radius.toNat rng)

/-! ## ConnectedHexflowerBuilder (generators.py). -/

/-- The frontier list computed in build_chain: for every key of the super
grid, append every neighbor that is not itself a key. A coordinate
adjacent to several occupied cells is appended once per such cell. Set
iteration order is modelled as dict insertion order. -/
def frontierList (superKeys : List Hex) : List Hex :=
  superKeys.foldl
    (fun acc h => acc ++ h.neighbors.filter (fun nb => !superKeys.contains nb))
    []

/-- The retry loop of build_chain for one new cluster: draw a frontier
target and an anchor inside the new cluster, translate the cluster so the
anchor lands on the target, and accept only if the moved cluster is
disjoint from the super grid and touches it; none models exhausting
max_tries (and the unreachable IndexError of drawing from an empty list). -/
def tryPlace (superMap new : HexGrid) (frontier newKeys : List Hex) :
    Rng → ℕ → Option (HexGrid × Rng)
  | _, 0 => none
  | rng, n + 1 =>
    match rng.choice frontier with
    | none => none
    | some (target, rng1) =>
      match rng1.choice newKeys with
      | none => none
      | some (anchor, rng2) =>
        let moved := new.translate (target.q - anchor.q) (target.r - anchor.r)
        if superMap.isDisjoint moved then
          if superMap.touches moved then some (superMap.update moved, rng2)
          else tryPlace superMap new frontier newKeys rng2 n
        else tryPlace superMap new frontier newKeys rng2 n

/-- The placement loop of build_chain: k remaining non-seed clusters, each
freshly generated at the origin and placed through tryPlace. -/
def buildChainLoop (radius : ℕ) (maxTries : ℕ) :
    ℕ → HexGrid × Rng → Except String (HexGrid × Rng)
  | 0, st => .ok st
  | k + 1, (superMap, rng) =>
    let (new, rng1) := generateCore ⟨0, 0⟩ radius rng
    let frontier := frontierList superMap.keys
    if frontier.isEmpty then
      .error "No frontier found; super_map unexpectedly has no empty adjacent hexes."
    else
      match tryPlace superMap new frontier new.keys rng1 maxTries with
      | none => .error "Failed to place a connected snowflake without overlap."
      | some (superMap1, rng2) => buildChainLoop radius maxTries k (superMap1, rng2)

/-- ConnectedHexflowerBuilder.build_chain: count must be at least 1; the
seed cluster is generated at the origin (propagating the ValueError of a
negative radius), written into the empty super grid, and the remaining
count - 1 clusters are placed by the retry loop. -/
def buildChain (count radius : ℤ) (maxTries : ℕ) (rng : Rng) :
    Except String (HexGrid × Rng) :=
  if count < 1 then .error "count must be >= 1"
  else
    match generate ⟨0, 0⟩ radius rng with
    | .error e => .error e
    | .ok (seed, rng1) =>
      buildChainLoop radius.toNat maxTries (count - 1).toNat
        (HexGrid.empty.update seed, rng1)

/-! ## ConcentricHexflowerOfHexflowersBuilder (generators.py). -/

/-- The first-wins merge loop in build: write a cell of the new snowflake
only if its coordinate is not yet present in the output grid. -/
def mergeFirstWins (out snow : HexGrid) : HexGrid :=
  snow.cells.foldl
    (fun acc p => if (acc.get p.1).isNone then acc.set p.1 p.2 else acc)
    out

/-- The meta-position loop of build: for each meta-position, generate one
snowflake centered at the meta-position scaled by spacing = 2 * radius,
and merge it first-wins. -/
def buildSteps (clusterRadius : ℕ) (positions : List Hex)
    (st : HexGrid × Rng) : HexGrid × Rng :=
  positions.foldl
    (fun st mh =>
      let spacing : ℤ := 2 * (clusterRadius : ℤ)
      let snow := generateCore ⟨mh.q * spacing, mh.r * spacing⟩ clusterRadius st.2
      (mergeFirstWins st.1 snow.1, snow.2))
    st

/-- ConcentricHexflowerOfHexflowersBuilder.build including the two
negative-radius ValueErrors; the meta positions are
spiral(origin, meta_radius). -/
def build (metaRadius clusterRadius : ℤ) (rng : Rng) :
    Except String (HexGrid × Rng) :=
  if metaRadius < 0 then .error "meta_radius must be >= 0"
  else if clusterRadius < 0 then .error "snowflake_radius must be >= 0"
  else
    .ok (buildSteps clusterRadius.toNat
      (spiralList ⟨0, 0⟩ metaRadius.toNat) (HexGrid.empty, rng))

/-- A fixed random-source state used for concrete witnesses: the stream of
all-zero draws starting at position 0. -/
def constRng : Rng := ⟨fun _ => 0, 0⟩

/-! # Lemmas -/

/-! ## Nat.max and the hex distance. -/

/-- The two bounds and the case disjunction for Nat.max, packaged so that
omega can treat each max occurrence as an atom. -/
theorem maxFacts (x y : ℕ) :
    x ≤ Nat.max x y ∧ y ≤ Nat.max x y ∧ (Nat.max x y = x ∨ Nat.max x y = y) := by
  simp only [Nat.max_def]
  split_ifs <;> omega

theorem distance_symm (a b : Hex) : a.distance b = b.distance a := by
  unfold Hex.distance
  have f1 := maxFacts (a.r - b.r).natAbs ((a.q + a.r) - (b.q + b.r)).natAbs
  have f2 := maxFacts (a.q - b.q).natAbs
    (Nat.max (a.r - b.r).natAbs ((a.q + a.r) - (b.q + b.r)).natAbs)
  have f3 := maxFacts (b.r - a.r).natAbs ((b.q + b.r) - (a.q + a.r)).natAbs
  have f4 := maxFacts (b.q - a.q).natAbs
    (Nat.max (b.r - a.r).natAbs ((b.q + b.r) - (a.q + a.r)).natAbs)
  omega

theorem distance_eq_zero_iff (a b : Hex) : a.distance b = 0 ↔ a = b := by
  cases a with | mk aq ar =>
  cases b with | mk bq br =>
  unfold Hex.distance
  simp only [Hex.mk.injEq]
  have f1 := maxFacts (ar - br).natAbs ((aq + ar) - (bq + br)).natAbs
  have f2 := maxFacts (aq - bq).natAbs
    (Nat.max (ar - br).natAbs ((aq + ar) - (bq + br)).natAbs)
  omega

theorem distance_triangle (a b c : Hex) :
    a.distance c ≤ a.distance b + b.distance c := by
  unfold Hex.distance
  have f1 := maxFacts (a.r - c.r).natAbs ((a.q + a.r) - (c.q + c.r)).natAbs
  have f2 := maxFacts (a.q - c.q).natAbs
    (Nat.max (a.r - c.r).natAbs ((a.q + a.r) - (c.q + c.r)).natAbs)
  obtain ⟨f3, f3b, -⟩ := maxFacts (a.r - b.r).natAbs ((a.q + a.r) - (b.q + b.r)).natAbs
  obtain ⟨f4, f4b, -⟩ := maxFacts (a.q - b.q).natAbs
    (Nat.max (a.r - b.r).natAbs ((a.q + a.r) - (b.q + b.r)).natAbs)
  obtain ⟨f5, f5b, -⟩ := maxFacts (b.r - c.r).natAbs ((b.q + b.r) - (c.q + c.r)).natAbs
  obtain ⟨f6, f6b, -⟩ := maxFacts (b.q - c.q).natAbs
    (Nat.max (b.r - c.r).natAbs ((b.q + b.r) - (c.q + c.r)).natAbs)
  omega

/-- Characterization of distance as the least upper bound of the three
axial differences, stated max-free so that omega can use it directly. -/
theorem distance_eq_iff (a b : Hex) (n : ℕ) :
    a.distance b = (n : ℤ) ↔
      (a.q - b.q).natAbs ≤ n ∧ (a.r - b.r).natAbs ≤ n ∧
      ((a.q + a.r) - (b.q + b.r)).natAbs ≤ n ∧
      ((a.q - b.q).natAbs = n ∨ (a.r - b.r).natAbs = n ∨
        ((a.q + a.r) - (b.q + b.r)).natAbs = n) := by
  unfold Hex.distance
  have f1 := maxFacts (a.r - b.r).natAbs ((a.q + a.r) - (b.q + b.r)).natAbs
  have f2 := maxFacts (a.q - b.q).natAbs
    (Nat.max (a.r - b.r).natAbs ((a.q + a.r) - (b.q + b.r)).natAbs)
  omega

/-! ## Association-list (Python dict) lemmas. -/

theorem getCells_setCells (l : List (Hex × Biome)) (h : Hex) (v : Biome) (k : Hex) :
    getCells (setCells l h v) k = if k = h then some v else getCells l k := by
  induction l with
  | nil =>
    simp only [setCells, getCells]
    by_cases hk : k = h
    · subst hk; simp
    · simp [hk, Ne.symm hk]
  | cons p rest ih =>
    simp only [setCells]
    by_cases hp : p.1 = h
    · subst hp
      simp only [if_pos rfl, getCells]
      by_cases hk : k = p.1
      · subst hk; simp
      · simp [hk, Ne.symm hk]
    · simp only [if_neg hp, getCells, ih]
      by_cases hpk : p.1 = k
      · have hkh : ¬k = h := fun he => hp (hpk.trans he)
        simp [hpk, hkh]
      · simp [hpk]

theorem keys_setCells (l : List (Hex × Biome)) (h : Hex) (v : Biome) :
    (setCells l h v).map Prod.fst =
      if h ∈ l.map Prod.fst then l.map Prod.fst else l.map Prod.fst ++ [h] := by
  induction l with
  | nil => simp [setCells]
  | cons p rest ih =>
    simp only [setCells]
    by_cases hp : p.1 = h
    · simp [hp]
    · simp only [if_neg hp, List.map_cons, ih]
      by_cases hm : h ∈ rest.map Prod.fst
      · simp [hm, Ne.symm hp, hp]
      · simp [hm, Ne.symm hp, hp]

theorem setCells_fresh (l : List (Hex × Biome)) (h : Hex) (v : Biome)
    (hf : h ∉ l.map Prod.fst) : setCells l h v = l ++ [(h, v)] := by
  induction l with
  | nil => simp [setCells]
  | cons p rest ih =>
    simp only [List.map_cons, List.mem_cons, not_or] at hf
    have hne : ¬p.1 = h := fun he => hf.1 he.symm
    simp only [setCells, if_neg hne, List.cons_append]
    exact congrArg (p :: ·) (ih hf.2)

theorem getCells_isSome_iff (l : List (Hex × Biome)) (h : Hex) :
    (getCells l h).isSome ↔ h ∈ l.map Prod.fst := by
  induction l with
  | nil => simp [getCells]
  | cons p rest ih =>
    simp only [getCells, List.map_cons, List.mem_cons]
    split_ifs with hp
    · simp [hp]
    · have hne : ¬h = p.1 := fun he => hp he.symm
      rw [ih]
      simp [hne]

/-- Folding dict writes over entries whose keys are all fresh and mutually
distinct just appends the entries in order. -/
theorem foldl_setCells_of_nodup (l acc : List (Hex × Biome))
    (hn : ((acc ++ l).map Prod.fst).Nodup) :
    l.foldl (fun a p => setCells a p.1 p.2) acc = acc ++ l := by
  induction l generalizing acc with
  | nil => simp
  | cons p rest ih =>
    simp only [List.foldl_cons]
    have hfresh : p.1 ∉ acc.map Prod.fst := by
      simp only [List.map_append, List.map_cons] at hn
      have := (List.nodup_append.mp hn).2.2
      intro hmem
      exact (this hmem) (List.mem_cons_self _ _)
    rw [setCells_fresh acc p.1 p.2 hfresh]
    have hn' : (((acc ++ [p]) ++ rest).map Prod.fst).Nodup := by
      simpa [List.append_assoc] using hn
    simpa [List.append_assoc] using ih (acc ++ [p]) hn'



/-! ## Ring traversal: closed form, distance, distinctness. -/

theorem dirAt0 : dirAt 0 = (1, 0) := rfl
theorem dirAt1 : dirAt 1 = (1, -1) := rfl
theorem dirAt2 : dirAt 2 = (0, -1) := rfl
theorem dirAt3 : dirAt 3 = (-1, 0) := rfl
theorem dirAt4 : dirAt 4 = (-1, 1) := rfl
theorem dirAt5 : dirAt 5 = (0, 1) := rfl

theorem scaleDir_zero (h : Hex) (s : ℕ) : h.scaleDir s 0 = h := by
  cases h
  simp [Hex.scaleDir]

theorem scaleDir_step (h : Hex) (s : ℕ) (k : ℤ) :
    (h.scaleDir s k).step s = h.scaleDir s (k + 1) := by
  cases h
  simp only [Hex.scaleDir, Hex.step, Hex.mk.injEq]
  constructor <;> ring

/-- The inner loop of ring: walking n steps along one side appends the n
positions h, h + dir, ..., h + (n-1)dir and ends at h + n dir. -/
theorem ringInner (side n : ℕ) (h : Hex) (out : List Hex) :
    (List.range n).foldl (fun st (_ : ℕ) => (st.1.step side, st.2 ++ [st.1])) (h, out) =
      (h.scaleDir side (n : ℤ),
        out ++ (List.range n).map (fun (t : ℕ) => h.scaleDir side (t : ℤ))) := by
  induction n with
  | zero => simp [scaleDir_zero]
  | succ n ih =>
    rw [List.range_succ, List.foldl_append, ih]
    simp only [List.foldl_cons, List.foldl_nil, scaleDir_step]
    push_cast
    simp [List.append_assoc]

/-- The ring walk decomposes into its six straight segments. -/
theorem ringList_eq_segs (c : Hex) (r : ℕ) (hr : r ≠ 0) :
    ringList c r =
      ringSeg c r 0 ++ ringSeg c r 1 ++ ringSeg c r 2 ++
        ringSeg c r 3 ++ ringSeg c r 4 ++ ringSeg c r 5 := by
  unfold ringList
  rw [if_neg hr]
  have h6 : List.range 6 = [0, 1, 2, 3, 4, 5] := rfl
  rw [h6]
  simp only [List.foldl_cons, List.foldl_nil, ringInner]
  simp [ringSeg, segStart, List.append_assoc]

/-- Each segment in explicit coordinates. -/
theorem ringSeg_eq_map (c : Hex) (r : ℕ) (s : ℕ) (hs : s < 6) :
    ringSeg c r s = (List.range r).map (ringPoint c r s) := by
  unfold ringSeg
  apply List.map_congr_left
  intro t ht
  interval_cases s <;>
    simp [segStart, Hex.scaleDir, dirAt0, dirAt1, dirAt2, dirAt3, dirAt4, dirAt5,
      ringPoint, Hex.mk.injEq] <;>
    constructor <;> ring

theorem ringPoint_distance (c : Hex) (r s t : ℕ) (hs : s < 6) (ht : t < r) :
    (ringPoint c r s t).distance c = (r : ℤ) := by
  rw [distance_eq_iff]
  interval_cases s <;> (simp only [ringPoint]; omega)

theorem ringPoint_inj (c : Hex) (r s t s' t' : ℕ) (hs : s < 6) (hs' : s' < 6)
    (ht : t < r) (ht' : t' < r)
    (heq : ringPoint c r s t = ringPoint c r s' t') : s = s' ∧ t = t' := by
  interval_cases s <;> interval_cases s' <;>
    (simp only [ringPoint, Hex.mk.injEq] at heq; omega)

theorem ringSeg_nodup (c : Hex) (r : ℕ) (s : ℕ) (hs : s < 6) :
    (ringSeg c r s).Nodup := by
  rw [ringSeg_eq_map c r s hs]
  apply List.Nodup.map_on
  · intro t ht t' ht' heq
    exact (ringPoint_inj c r s t s t' hs hs (List.mem_range.mp ht)
      (List.mem_range.mp ht') heq).2
  · exact List.nodup_range r

theorem ringSeg_disjoint (c : Hex) (r : ℕ) (s s' : ℕ) (hs : s < 6) (hs' : s' < 6)
    (hne : s ≠ s') : (ringSeg c r s).Disjoint (ringSeg c r s') := by
  rw [ringSeg_eq_map c r s hs, ringSeg_eq_map c r s' hs']
  intro a ha ha'
  obtain ⟨t, ht, rfl⟩ := List.mem_map.mp ha
  obtain ⟨t', ht', heq⟩ := List.mem_map.mp ha'
  exact hne (ringPoint_inj c r s t s' t' hs hs' (List.mem_range.mp ht)
    (List.mem_range.mp ht') heq.symm).1

theorem ringList_nodup (c : Hex) (r : ℕ) : (ringList c r).Nodup := by
  rcases Nat.eq_zero_or_pos r with h0 | hpos
  · subst h0
    simp [ringList]
  · rw [ringList_eq_segs c r hpos.ne']
    simp only [List.nodup_append, List.disjoint_append_left, List.disjoint_append_right]
    repeat' apply And.intro
    all_goals
      first
        | exact ringSeg_nodup c r _ (by norm_num)
        | exact ringSeg_disjoint c r _ _ (by norm_num) (by norm_num) (by norm_num)

theorem ringList_length (c : Hex) (r : ℕ) :
    (ringList c r).length = Nat.max 1 (6 * r) := by
  rcases Nat.eq_zero_or_pos r with h0 | hpos
  · subst h0
    simp [ringList]
  · rw [ringList_eq_segs c r hpos.ne']
    simp only [List.length_append, ringSeg, List.length_map, List.length_range]
    obtain ⟨f1, f2, f3⟩ := maxFacts 1 (6 * r)
    omega

theorem mem_ringList_iff (c : Hex) (r : ℕ) (hr : 0 < r) (p : Hex) :
    p ∈ ringList c r ↔ ∃ s, s < 6 ∧ ∃ t, t < r ∧ p = ringPoint c r s t := by
  rw [ringList_eq_segs c r hr.ne',
    ringSeg_eq_map c r 0 (by norm_num), ringSeg_eq_map c r 1 (by norm_num),
    ringSeg_eq_map c r 2 (by norm_num), ringSeg_eq_map c r 3 (by norm_num),
    ringSeg_eq_map c r 4 (by norm_num), ringSeg_eq_map c r 5 (by norm_num)]
  simp only [List.mem_append, List.mem_map, List.mem_range]
  constructor
  · rintro (((((⟨t, ht, rfl⟩ | ⟨t, ht, rfl⟩) | ⟨t, ht, rfl⟩) | ⟨t, ht, rfl⟩) |
      ⟨t, ht, rfl⟩) | ⟨t, ht, rfl⟩)
    · exact ⟨0, by norm_num, t, ht, rfl⟩
    · exact ⟨1, by norm_num, t, ht, rfl⟩
    · exact ⟨2, by norm_num, t, ht, rfl⟩
    · exact ⟨3, by norm_num, t, ht, rfl⟩
    · exact ⟨4, by norm_num, t, ht, rfl⟩
    · exact ⟨5, by norm_num, t, ht, rfl⟩
  · rintro ⟨s, hs, t, ht, rfl⟩
    interval_cases s
    · exact Or.inl (Or.inl (Or.inl (Or.inl (Or.inl ⟨t, ht, rfl⟩))))
    · exact Or.inl (Or.inl (Or.inl (Or.inl (Or.inr ⟨t, ht, rfl⟩))))
    · exact Or.inl (Or.inl (Or.inl (Or.inr ⟨t, ht, rfl⟩)))
    · exact Or.inl (Or.inl (Or.inr ⟨t, ht, rfl⟩))
    · exact Or.inl (Or.inr ⟨t, ht, rfl⟩)
    · exact Or.inr ⟨t, ht, rfl⟩

theorem ringList_distance (c : Hex) (r : ℕ) :
    ∀ p ∈ ringList c r, p.distance c = (r : ℤ) := by
  intro p hp
  rcases Nat.eq_zero_or_pos r with h0 | hpos
  · subst h0
    simp [ringList] at hp
    subst hp
    simpa using (distance_eq_zero_iff p p).mpr rfl
  · obtain ⟨s, hs, t, ht, rfl⟩ := (mem_ringList_iff c r hpos p).mp hp
    exact ringPoint_distance c r s t hs ht

theorem ringList_head (c : Hex) (r : ℕ) (hr : 0 < r) :
    (ringList c r).head? = some (c.scaleDir 4 (r : ℤ)) := by
  rw [ringList_eq_segs c r hr.ne']
  obtain ⟨n, rfl⟩ : ∃ n, r = n + 1 := ⟨r - 1, by omega⟩
  simp only [ringSeg, List.range_succ_eq_map, List.map_cons, List.cons_append,
    List.head?_cons, Nat.cast_zero, scaleDir_zero]
  rfl

/-- ring with a nonnegative radius argument succeeds and returns the walk. -/
theorem ring_coe (c : Hex) (r : ℕ) : ring c (r : ℤ) = .ok (ringList c r) := by
  simp [ring]

/-- ring with a negative radius reports the ValueError. -/
theorem ring_neg (c : Hex) (r : ℤ) (hr : r < 0) :
    ring c r = .error "radius must be >= 0" := by
  simp [ring, hr]

/-! ## Spiral traversal. -/

theorem spiralList_zero (c : Hex) : spiralList c 0 = [c] := rfl

theorem spiralList_succ (c : Hex) (r : ℕ) :
    spiralList c (r + 1) = spiralList c r ++ ringList c (r + 1) := by
  unfold spiralList
  rw [List.range_succ, List.foldl_append]
  rfl

theorem mem_spiralList_iff (c : Hex) (r : ℕ) (p : Hex) :
    p ∈ spiralList c r ↔ ∃ i, i ≤ r ∧ p ∈ ringList c i := by
  induction r with
  | zero =>
    simp only [spiralList_zero, List.mem_singleton]
    constructor
    · rintro rfl
      exact ⟨0, le_refl 0, by simp [ringList]⟩
    · rintro ⟨i, hi, hp⟩
      interval_cases i
      simpa [ringList] using hp
  | succ r ih =>
    rw [spiralList_succ, List.mem_append, ih]
    constructor
    · rintro (⟨i, hi, hp⟩ | hp)
      · exact ⟨i, by omega, hp⟩
      · exact ⟨r + 1, le_refl _, hp⟩
    · rintro ⟨i, hi, hp⟩
      rcases Nat.lt_or_ge i (r + 1) with hlt | hge
      · exact Or.inl ⟨i, by omega, hp⟩
      · have : i = r + 1 := by omega
        subst this
        exact Or.inr hp

theorem spiralList_nodup (c : Hex) (r : ℕ) : (spiralList c r).Nodup := by
  induction r with
  | zero => simp [spiralList_zero]
  | succ r ih =>
    rw [spiralList_succ, List.nodup_append]
    refine ⟨ih, ringList_nodup c (r + 1), ?_⟩
    intro p hp hp'
    obtain ⟨i, hi, hpi⟩ := (mem_spiralList_iff c r p).mp hp
    have h1 := ringList_distance c i p hpi
    have h2 := ringList_distance c (r + 1) p hp'
    rw [h1] at h2
    have : i = r + 1 := by exact_mod_cast h2
    omega

theorem spiralList_length (c : Hex) (r : ℕ) :
    (spiralList c r).length = 1 + 3 * r * (r + 1) := by
  induction r with
  | zero => simp [spiralList_zero]
  | succ r ih =>
    rw [spiralList_succ, List.length_append, ih, ringList_length]
    have hmax : Nat.max 1 (6 * (r + 1)) = 6 * (r + 1) := by
      obtain ⟨f1, f2, f3⟩ := maxFacts 1 (6 * (r + 1))
      omega
    rw [hmax]
    ring

/-- The monadic fold in spiral, over nonnegative ring indices, always
succeeds and concatenates the rings. -/
theorem spiral_fold_ok (c : Hex) (l : List ℕ) (acc : List Hex) :
    ((l.map (fun (i : ℕ) => (i : ℤ))).foldlM
        (fun out r => do
          let lr ← ring c r
          pure (out ++ lr))
        acc : Except String (List Hex)) =
      .ok (l.foldl (fun out i => out ++ ringList c i) acc) := by
  induction l generalizing acc with
  | nil => rfl
  | cons i rest ih =>
    simp only [List.map_cons, List.foldlM_cons, ring_coe, List.foldl_cons]
    simpa using ih (acc ++ ringList c i)

/-- spiral with a nonnegative radius succeeds and returns the rings
0 .. radius concatenated. -/
theorem spiral_coe (c : Hex) (r : ℕ) : spiral c (r : ℤ) = .ok (spiralList c r) := by
  unfold spiral
  have hl : intRange 0 ((r : ℤ) + 1) = (List.range (r + 1)).map (fun (i : ℕ) => (i : ℤ)) := by
    unfold intRange
    have : ((r : ℤ) + 1 - 0).toNat = r + 1 := by omega
    rw [this]
    apply List.map_congr_left
    intro i hi
    omega
  rw [hl, spiral_fold_ok]
  rfl

/-- spiral with a negative radius silently returns the empty list: the
Python loop range(0, radius+1) is empty, so no error is raised. -/
theorem spiral_neg (c : Hex) (r : ℤ) (hr : r < 0) : spiral c r = .ok [] := by
  unfold spiral intRange
  have : (r + 1 - 0).toNat = 0 := by omega
  rw [this]
  rfl

/-! ## HexGrid lemmas. -/

theorem HexGrid.get_set (g : HexGrid) (h : Hex) (v : Biome) (k : Hex) :
    (g.set h v).get k = if k = h then some v else g.get k :=
  getCells_setCells g.cells h v k

theorem HexGrid.keys_set (g : HexGrid) (h : Hex) (v : Biome) :
    (g.set h v).keys = if h ∈ g.keys then g.keys else g.keys ++ [h] :=
  keys_setCells g.cells h v

theorem HexGrid.get_isSome_iff (g : HexGrid) (h : Hex) :
    (g.get h).isSome ↔ h ∈ g.keys :=
  getCells_isSome_iff g.cells h

/-- Updating the empty grid with a well-formed grid reproduces it exactly. -/
theorem empty_update (g : HexGrid) (hg : g.WF) : HexGrid.empty.update g = g := by
  unfold HexGrid.update HexGrid.empty
  have := foldl_setCells_of_nodup g.cells [] (by simpa using hg)
  rw [this]
  simp

/-! ## Snowflake generator: keys, well-formedness, cell count. -/

/-- Each ring fill step writes exactly the visited coordinate. -/
theorem fillCell_shape (center : Hex) (st : HexGrid × Rng) (h : Hex) :
    ∃ b rng1, fillCell center st h = (st.1.set h b, rng1) := by
  unfold fillCell
  cases chooseInwardNeighbor h center st.1 <;> exact ⟨_, _, rfl⟩

/-- Folding the ring fill over fresh, mutually distinct coordinates appends
exactly those coordinates to the key list. -/
theorem fold_fillCell_keys (center : Hex) (hs : List Hex) (st : HexGrid × Rng)
    (hn : (st.1.keys ++ hs).Nodup) :
    (hs.foldl (fillCell center) st).1.keys = st.1.keys ++ hs := by
  induction hs generalizing st with
  | nil => simp
  | cons h rest ih =>
    obtain ⟨b, rng1, heq⟩ := fillCell_shape center st h
    simp only [List.foldl_cons, heq]
    have hfresh : h ∉ st.1.keys := by
      have := (List.nodup_append.mp hn).2.2
      intro hmem
      exact this hmem (List.mem_cons_self _ _)
    have hkeys : (st.1.set h b).keys = st.1.keys ++ [h] := by
      rw [HexGrid.keys_set, if_neg hfresh]
    have hn' : ((st.1.set h b).keys ++ rest).Nodup := by
      rw [hkeys]
      simpa [List.append_assoc] using hn
    have := ih (st.1.set h b, rng1) hn'
    simpa [hkeys, List.append_assoc] using this

/-- Peeling the outermost ring off the generator loop. -/
theorem generateCore_succ (center : Hex) (r : ℕ) (rng : Rng) :
    generateCore center (r + 1) rng =
      (ringList center (r + 1)).foldl (fillCell center) (generateCore center r rng) := by
  unfold generateCore
  rw [List.range_succ, List.foldl_append]
  rfl

/-- The generated grid visits exactly the spiral coordinates, in order. -/
theorem generateCore_keys (center : Hex) (r : ℕ) (rng : Rng) :
    (generateCore center r rng).1.keys = spiralList center r := by
  induction r with
  | zero =>
    unfold generateCore
    simp [HexGrid.keys, HexGrid.set, HexGrid.empty, setCells, spiralList_zero]
  | succ r ih =>
    rw [generateCore_succ]
    have hn : ((generateCore center r rng).1.keys ++ ringList center (r + 1)).Nodup := by
      rw [ih, ← spiralList_succ]
      exact spiralList_nodup center (r + 1)
    rw [fold_fillCell_keys center _ _ hn, ih, ← spiralList_succ]

/-- Generated grids are well-formed dicts. -/
theorem generateCore_WF (center : Hex) (r : ℕ) (rng : Rng) :
    (generateCore center r rng).1.WF := by
  unfold HexGrid.WF
  rw [generateCore_keys]
  exact spiralList_nodup center r

/-- The generated grid has exactly the hex-count of the spiral. -/
theorem generateCore_size (center : Hex) (r : ℕ) (rng : Rng) :
    (generateCore center r rng).1.size = 1 + 3 * r * (r + 1) := by
  have hk : (generateCore center r rng).1.keys.length = (spiralList center r).length := by
    rw [generateCore_keys]
  unfold HexGrid.keys at hk
  rw [List.length_map] at hk
  unfold HexGrid.size
  rw [hk, spiralList_length]

/-- The center is always present in the generated grid. -/
theorem generateCore_center_mem (center : Hex) (r : ℕ) (rng : Rng) :
    ((generateCore center r rng).1.get center).isSome := by
  rw [HexGrid.get_isSome_iff, generateCore_keys, mem_spiralList_iff]
  exact ⟨0, Nat.zero_le r, by simp [ringList]⟩

/-! ## Translation. -/

theorem add_inj (dq dr : ℤ) (a b : Hex) (h : a.add dq dr = b.add dq dr) : a = b := by
  cases a; cases b
  simp only [Hex.add, Hex.mk.injEq] at h ⊢
  omega

/-- translate of a well-formed grid maps every cell in place, in order. -/
theorem translate_cells (g : HexGrid) (dq dr : ℤ) (hg : g.WF) :
    (g.translate dq dr).cells = g.cells.map (fun p => (p.1.add dq dr, p.2)) := by
  unfold HexGrid.translate
  have hfold :
      g.cells.foldl (fun acc p => setCells acc (p.1.add dq dr) p.2) [] =
        (g.cells.map (fun p => (p.1.add dq dr, p.2))).foldl
          (fun acc p => setCells acc p.1 p.2) [] := by
    rw [List.foldl_map]
  rw [hfold]
  apply foldl_setCells_of_nodup
  simp only [List.nil_append, List.map_map]
  show (g.cells.map ((fun h => h.add dq dr) ∘ Prod.fst)).Nodup
  rw [← List.map_map]
  exact hg.map (fun a b => add_inj dq dr a b)

theorem translate_WF (g : HexGrid) (dq dr : ℤ) (hg : g.WF) :
    (g.translate dq dr).WF := by
  unfold HexGrid.WF HexGrid.keys
  rw [translate_cells g dq dr hg, List.map_map]
  have : (Prod.fst ∘ fun (p : Hex × Biome) => (p.1.add dq dr, p.2)) =
      (fun h => h.add dq dr) ∘ Prod.fst := rfl
  rw [this, ← List.map_map]
  exact (hg : (g.cells.map Prod.fst).Nodup).map (fun a b => add_inj dq dr a b)

/-! ## Neighbor relation symmetry. -/

theorem mem_neighbors_iff (h p : Hex) :
    p ∈ h.neighbors ↔ ∃ i, i < 6 ∧ p = h.step i := by
  unfold Hex.neighbors
  simp only [List.mem_map, List.mem_range]
  constructor
  · rintro ⟨i, hi, rfl⟩
    exact ⟨i, hi, rfl⟩
  · rintro ⟨i, hi, rfl⟩
    exact ⟨i, hi, rfl⟩

theorem mem_neighbors_symm (h nb : Hex) (hmem : nb ∈ h.neighbors) :
    h ∈ nb.neighbors := by
  rw [mem_neighbors_iff] at hmem ⊢
  obtain ⟨i, hi, rfl⟩ := hmem
  interval_cases i
  · exact ⟨3, by norm_num, by cases h; simp [Hex.step, dirAt0, dirAt3]⟩
  · exact ⟨4, by norm_num, by cases h; simp [Hex.step, dirAt1, dirAt4]⟩
  · exact ⟨5, by norm_num, by cases h; simp [Hex.step, dirAt2, dirAt5]⟩
  · exact ⟨0, by norm_num, by cases h; simp [Hex.step, dirAt3, dirAt0]⟩
  · exact ⟨1, by norm_num, by cases h; simp [Hex.step, dirAt4, dirAt1]⟩
  · exact ⟨2, by norm_num, by cases h; simp [Hex.step, dirAt5, dirAt2]⟩

/-! ## First-wins merge and the concentric builder loop. -/

theorem mergeFold_preserve (l : List (Hex × Biome)) (out : HexGrid) (h : Hex)
    (v : Biome) (hv : out.get h = some v) :
    (l.foldl (fun acc p => if (acc.get p.1).isNone then acc.set p.1 p.2 else acc)
        out).get h = some v := by
  induction l generalizing out with
  | nil => exact hv
  | cons p rest ih =>
    simp only [List.foldl_cons]
    apply ih
    split_ifs with hn
    · rw [HexGrid.get_set]
      split_ifs with he
    -- overwriting h is impossible: h already holds a value, the guard saw none
      · rw [he] at hv
        rw [hv] at hn
        simp at hn
      · exact hv
    · exact hv

theorem mergeFirstWins_preserve (out snow : HexGrid) (h : Hex) (v : Biome)
    (hv : out.get h = some v) : (mergeFirstWins out snow).get h = some v :=
  mergeFold_preserve snow.cells out h v hv

theorem buildSteps_append (R : ℕ) (l1 l2 : List Hex) (st : HexGrid × Rng) :
    buildSteps R (l1 ++ l2) st = buildSteps R l2 (buildSteps R l1 st) := by
  unfold buildSteps
  rw [List.foldl_append]

theorem buildSteps_get_mono (R : ℕ) (l2 : List Hex) :
    ∀ (st : HexGrid × Rng) (h : Hex) (v : Biome),
      st.1.get h = some v → (buildSteps R l2 st).1.get h = some v := by
  induction l2 with
  | nil => intro st h v hv; exact hv
  | cons mh rest ih =>
    intro st h v hv
    unfold buildSteps
    simp only [List.foldl_cons]
    exact ih _ h v (mergeFirstWins_preserve _ _ h v hv)

/-! ## Touch and disjointness predicates. -/

theorem touches_exists (a b : HexGrid) (h : a.touches b = true) :
    ∃ p ∈ a.keys, ∃ nb ∈ p.neighbors, nb ∈ b.keys := by
  unfold HexGrid.touches at h
  simp only [List.any_eq_true] at h
  obtain ⟨p, hp, nb, hnbm, hc⟩ := h
  refine ⟨p.1, List.mem_map_of_mem Prod.fst hp, nb, hnbm, ?_⟩
  simpa using hc

theorem touches_exists_symm (a b : HexGrid) (h : a.touches b = true) :
    ∃ p ∈ b.keys, ∃ nb ∈ p.neighbors, nb ∈ a.keys := by
  obtain ⟨p, hp, nb, hnbm, hnb⟩ := touches_exists a b h
  exact ⟨nb, hnb, p, mem_neighbors_symm p nb hnbm, hp⟩

/-! ## The placement retry loop. -/

theorem tryPlace_success (superMap new : HexGrid) (frontier newKeys : List Hex)
    (rng : Rng) (n : ℕ) (out : HexGrid × Rng)
    (h : tryPlace superMap new frontier newKeys rng n = some out) :
    ∃ dq dr, superMap.isDisjoint (new.translate dq dr) = true ∧
      superMap.touches (new.translate dq dr) = true ∧
      out.1 = superMap.update (new.translate dq dr) := by
  induction n generalizing rng with
  | zero => simp [tryPlace] at h
  | succ n ih =>
    unfold tryPlace at h
    cases hc1 : rng.choice frontier with
    | none =>
      rw [hc1] at h
      simp at h
    | some pr1 =>
      obtain ⟨target, rng1⟩ := pr1
      rw [hc1] at h
      dsimp only at h
      cases hc2 : rng1.choice newKeys with
      | none =>
        rw [hc2] at h
        simp at h
      | some pr2 =>
        obtain ⟨anchor, rng2⟩ := pr2
        rw [hc2] at h
        dsimp only at h
        split_ifs at h with h1 h2
        · refine ⟨target.q - anchor.q, target.r - anchor.r, h1, h2, ?_⟩
          injection h with h3
          rw [← h3]
        · exact ih rng2 h
        · exact ih rng2 h

/-! ## Frontier computation. -/

theorem contains_iff_mem {α : Type _} [DecidableEq α] (l : List α) (a : α) :
    l.contains a = true ↔ a ∈ l := by
  simp [List.contains, List.elem_iff]

theorem foldl_append_flatMap {α β : Type _} (f : α → List β) (l : List α)
    (init : List β) :
    l.foldl (fun acc h => acc ++ f h) init = init ++ l.flatMap f := by
  induction l generalizing init with
  | nil => simp
  | cons x rest ih =>
    simp only [List.foldl_cons, List.flatMap_cons, ih, List.append_assoc]

theorem frontierList_eq_flatMap (ks : List Hex) :
    frontierList ks =
      ks.flatMap (fun h => h.neighbors.filter (fun nb => !ks.contains nb)) := by
  unfold frontierList
  rw [foldl_append_flatMap]
  rfl

theorem mem_frontierList (ks : List Hex) (nb : Hex) :
    nb ∈ frontierList ks ↔ nb ∉ ks ∧ ∃ h ∈ ks, nb ∈ h.neighbors := by
  rw [frontierList_eq_flatMap]
  simp only [List.mem_flatMap, List.mem_filter, Bool.not_eq_true']
  constructor
  · rintro ⟨h, hh, hmem, hnot⟩
    refine ⟨?_, h, hh, hmem⟩
    intro hm
    rw [(contains_iff_mem ks nb).mpr hm] at hnot
    cases hnot
  · rintro ⟨hnot, h, hh, hmem⟩
    refine ⟨h, hh, hmem, ?_⟩
    cases hcc : ks.contains nb
    · rfl
    · exact absurd ((contains_iff_mem ks nb).mp hcc) hnot

theorem neighbors_nodup (h : Hex) : h.neighbors.Nodup := by
  unfold Hex.neighbors
  apply List.Nodup.map_on
  · intro i hi j hj heq
    rw [List.mem_range] at hi hj
    interval_cases i <;> interval_cases j <;>
      first
        | rfl
        | (simp only [Hex.step, dirAt0, dirAt1, dirAt2, dirAt3, dirAt4, dirAt5,
            Hex.mk.injEq] at heq; omega)
  · exact List.nodup_range 6

/-- How often a coordinate occurs in the frontier list: never when it is
occupied, and otherwise once per occupied cell it is adjacent to. -/
theorem count_frontierList (ks : List Hex) (nb : Hex) :
    (frontierList ks).count nb =
      if nb ∈ ks then 0
      else (ks.filter (fun h => decide (nb ∈ h.neighbors))).length := by
  rw [frontierList_eq_flatMap]
  have haux : ∀ inner : List Hex,
      ((inner.flatMap (fun h => h.neighbors.filter (fun x => !ks.contains x))).count nb) =
        if nb ∈ ks then 0
        else (inner.filter (fun h => decide (nb ∈ h.neighbors))).length := by
    intro inner
    induction inner with
    | nil => simp
    | cons h rest ih =>
      rw [List.flatMap_cons, List.count_append, ih]
      by_cases hm : nb ∈ ks
      · simp only [if_pos hm]
        have : nb ∉ h.neighbors.filter (fun x => !ks.contains x) := by
          intro hmem
          have := (List.mem_filter.mp hmem).2
          rw [(contains_iff_mem ks nb).mpr hm] at this
          cases this
        rw [List.count_eq_zero.mpr this]
      · simp only [if_neg hm, List.filter_cons]
        have hcont : (!ks.contains nb) = true := by
          cases hcc : ks.contains nb
          · rfl
          · exact absurd ((contains_iff_mem ks nb).mp hcc) hm
        by_cases hnbm : nb ∈ h.neighbors
        · have hfm : nb ∈ h.neighbors.filter (fun x => !ks.contains x) :=
            List.mem_filter.mpr ⟨hnbm, hcont⟩
          have hcnt : (h.neighbors.filter (fun x => !ks.contains x)).count nb = 1 := by
            have hnd : (h.neighbors.filter (fun x => !ks.contains x)).Nodup :=
              (neighbors_nodup h).filter _
            exact List.count_eq_one_of_mem hnd hfm
          rw [hcnt]
          simp [hnbm]
          try omega
        · have hfm : nb ∉ h.neighbors.filter (fun x => !ks.contains x) := by
            intro hmem
            exact hnbm (List.mem_filter.mp hmem).1
          rw [List.count_eq_zero.mpr hfm]
          simp [hnbm]
  exact haux ks

/-! ## Error paths and the count = 1 chain. -/

theorem generate_coe (c : Hex) (r : ℕ) (rng : Rng) :
    generate c (r : ℤ) rng = .ok (generateCore c r rng) := by
  simp [generate]

theorem generate_neg (c : Hex) (r : ℤ) (rng : Rng) (hr : r < 0) :
    generate c r rng = .error "radius must be >= 0" := by
  simp [generate, hr]

theorem build_meta_neg (mr cr : ℤ) (rng : Rng) (hr : mr < 0) :
    build mr cr rng = .error "meta_radius must be >= 0" := by
  simp [build, hr]

theorem build_cluster_neg (mr cr : ℤ) (rng : Rng) (hmr : 0 ≤ mr) (hr : cr < 0) :
    build mr cr rng = .error "snowflake_radius must be >= 0" := by
  simp [build, hr, not_lt.mpr hmr]

theorem buildChain_count_low (count r : ℤ) (maxTries : ℕ) (rng : Rng)
    (hc : count < 1) :
    buildChain count r maxTries rng = .error "count must be >= 1" := by
  simp [buildChain, hc]

/-- buildChain with count = 1 is exactly one generate call: the seed grid is
returned unchanged, the placement loop never runs, and the random source
ends in the same state. -/
theorem buildChain_one (radius maxTries : ℕ) (rng : Rng) :
    buildChain 1 (radius : ℤ) maxTries rng = generate ⟨0, 0⟩ (radius : ℤ) rng := by
  have hrad : ((radius : ℤ)).toNat = radius := by omega
  unfold buildChain
  rw [if_neg (show ¬(1 : ℤ) < 1 by omega), generate_coe, hrad]
  show buildChainLoop radius maxTries ((1 : ℤ) - 1).toNat
      (HexGrid.empty.update (generateCore ⟨0, 0⟩ radius rng).1,
        (generateCore ⟨0, 0⟩ radius rng).2) =
    generate ⟨0, 0⟩ (radius : ℤ) rng
  have h0 : ((1 : ℤ) - 1).toNat = 0 := by norm_num
  rw [h0, generate_coe]
  show Except.ok (HexGrid.empty.update (generateCore ⟨0, 0⟩ radius rng).1,
      (generateCore ⟨0, 0⟩ radius rng).2) = _
  rw [empty_update _ (generateCore_WF ⟨0, 0⟩ radius rng)]

theorem build_coe (metaRadius clusterRadius : ℕ) (rng : Rng) :
    build (metaRadius : ℤ) (clusterRadius : ℤ) rng =
      .ok (buildSteps clusterRadius (spiralList ⟨0, 0⟩ metaRadius)
        (HexGrid.empty, rng)) := by
  unfold build
  have h1 : ((metaRadius : ℤ)).toNat = metaRadius := by omega
  have h2 : ((clusterRadius : ℤ)).toNat = clusterRadius := by omega
  rw [if_neg (show ¬(metaRadius : ℤ) < 0 by omega),
    if_neg (show ¬(clusterRadius : ℤ) < 0 by omega), h1, h2]

/-! ## Python indexing into the direction table. -/

theorem DIRS_getq (n : ℕ) : DIRS.get? n = if n < 6 then some (dirAt n) else none := by
  rcases Nat.lt_or_ge n 6 with h | h
  · interval_cases n <;> rfl
  · rw [if_neg (by omega)]
    apply List.get?_eq_none.mpr
    simp only [DIRS, List.length_cons, List.length_nil]
    omega

/-! # Claim theorems -/

/-- Claim C1: for every center c and nonnegative radius r, ring(c, r)
succeeds and returns exactly max(1, 6r) coordinates (the single c when
r = 0), all at hex distance exactly r from c and pairwise distinct; for
r at least 1 the sequence starts at c shifted r steps in direction index 4
(south-west) and consists of six straight segments of length r, segment i
stepping in direction index i. -/
theorem claim_C1_ring (c : Hex) (r : ℕ) :
    ring c (r : ℤ) = .ok (ringList c r) ∧
    (ringList c r).length = Nat.max 1 (6 * r) ∧
    (∀ p ∈ ringList c r, p.distance c = (r : ℤ)) ∧
    (ringList c r).Nodup ∧
    ringList c 0 = [c] ∧
    (1 ≤ r →
      (ringList c r).head? = some (c.scaleDir 4 (r : ℤ)) ∧
      ringList c r =
        ringSeg c r 0 ++ ringSeg c r 1 ++ ringSeg c r 2 ++
          ringSeg c r 3 ++ ringSeg c r 4 ++ ringSeg c r 5) := by
  refine ⟨ring_coe c r, ringList_length c r, ringList_distance c r,
    ringList_nodup c r, rfl, fun hr => ⟨ringList_head c r hr, ?_⟩⟩
  exact ringList_eq_segs c r (by omega)

/-- Witness for C1 at center (2, -1) and radius 2, discharging the
r at least 1 hypothesis of the segment decomposition. -/
theorem claim_C1_ring_witness :
    (ringList ⟨2, -1⟩ 2).length = Nat.max 1 (6 * 2) ∧
    (ringList ⟨2, -1⟩ 2).head? = some (Hex.scaleDir ⟨2, -1⟩ 4 (2 : ℤ)) ∧
    ringList ⟨2, -1⟩ 2 =
      ringSeg ⟨2, -1⟩ 2 0 ++ ringSeg ⟨2, -1⟩ 2 1 ++ ringSeg ⟨2, -1⟩ 2 2 ++
        ringSeg ⟨2, -1⟩ 2 3 ++ ringSeg ⟨2, -1⟩ 2 4 ++ ringSeg ⟨2, -1⟩ 2 5 :=
  ⟨(claim_C1_ring ⟨2, -1⟩ 2).2.1,
   ((claim_C1_ring ⟨2, -1⟩ 2).2.2.2.2.2 (by norm_num)).1,
   ((claim_C1_ring ⟨2, -1⟩ 2).2.2.2.2.2 (by norm_num)).2⟩

/-- Claim C2: for every center, nonnegative radius and random-source state,
generate succeeds, the result contains the center, and it has exactly
1 + 3 r (r+1) cells. -/
theorem claim_C2_generate (center : Hex) (radius : ℕ) (rng : Rng) :
    ∃ g rng1, generate center (radius : ℤ) rng = .ok (g, rng1) ∧
      (g.get center).isSome ∧ g.size = 1 + 3 * radius * (radius + 1) := by
  refine ⟨(generateCore center radius rng).1, (generateCore center radius rng).2,
    ?_, generateCore_center_mem center radius rng, generateCore_size center radius rng⟩
  rw [generate_coe]

/-- Claim C8: the hex distance is symmetric, zero exactly on equal
coordinates, and satisfies the triangle inequality. -/
theorem claim_C8_distance (a b c : Hex) :
    a.distance b = b.distance a ∧ (a.distance b = 0 ↔ a = b) ∧
      a.distance c ≤ a.distance b + b.distance c :=
  ⟨distance_symm a b, distance_eq_zero_iff a b, distance_triangle a b c⟩

/-- A concrete two-cell grid used by witnesses. -/
def gW : HexGrid := ⟨[(⟨0, 0⟩, "grassland"), (⟨2, 3⟩, "forest")]⟩

/-- Claim C10: translating a (duplicate-free, as every Python dict is) grid
preserves the cell count, maps each cell (h, v) to (h + d, v), and
translating back by the opposite vector restores exactly the original
cells; the original grid is untouched since translate builds a fresh grid. -/
theorem claim_C10_translate (g : HexGrid) (dq dr : ℤ) (hg : g.WF) :
    (g.translate dq dr).size = g.size ∧
    (∀ h v, (h, v) ∈ g.cells → (h.add dq dr, v) ∈ (g.translate dq dr).cells) ∧
    ((g.translate dq dr).translate (-dq) (-dr)).cells = g.cells := by
  have ht := translate_cells g dq dr hg
  refine ⟨?_, ?_, ?_⟩
  · unfold HexGrid.size
    rw [ht, List.length_map]
  · intro h v hm
    rw [ht]
    exact List.mem_map_of_mem _ hm
  · rw [translate_cells _ _ _ (translate_WF g dq dr hg), ht, List.map_map]
    have hid : ((fun p : Hex × Biome => (p.1.add (-dq) (-dr), p.2)) ∘
        fun p : Hex × Biome => (p.1.add dq dr, p.2)) = id := by
      funext p
      cases p with | mk ph pv =>
      cases ph
      simp [Hex.add, Function.comp, Hex.mk.injEq]
    rw [hid, List.map_id]

/-- Witness for C10 on a concrete two-cell grid and vector (5, -7). -/
theorem claim_C10_translate_witness :
    (gW.translate 5 (-7)).size = gW.size ∧
    ((gW.translate 5 (-7)).translate (-5) (-(-7))).cells = gW.cells :=
  ⟨(claim_C10_translate gW 5 (-7) (show gW.keys.Nodup by decide)).1,
   (claim_C10_translate gW 5 (-7) (show gW.keys.Nodup by decide)).2.2⟩

/-- Claim C3: whenever the placement retry loop of build_chain accepts a
cluster (for any super grid, any generated cluster, any frontier and
anchor pool, any random-source state and any retry budget), the merged
cluster is a translate of the generated one that is fully disjoint from
the super grid and edge-adjacent to it (some of its coordinates has a
neighbor inside superMap), and the new super grid is exactly the old one
updated with that translate. -/
theorem claim_C3_placement (superMap new : HexGrid) (frontier newKeys : List Hex)
    (rng : Rng) (n : ℕ) (out : HexGrid × Rng)
    (h : tryPlace superMap new frontier newKeys rng n = some out) :
    ∃ dq dr,
      superMap.isDisjoint (new.translate dq dr) = true ∧
      superMap.touches (new.translate dq dr) = true ∧
      (∃ p ∈ (new.translate dq dr).keys, ∃ nb ∈ p.neighbors, nb ∈ superMap.keys) ∧
      out.1 = superMap.update (new.translate dq dr) := by
  obtain ⟨dq, dr, h1, h2, h3⟩ :=
    tryPlace_success superMap new frontier newKeys rng n out h
  exact ⟨dq, dr, h1, h2, touches_exists_symm superMap (new.translate dq dr) h2, h3⟩

/-- Single-cell super grid and cluster used as the C3 witness. -/
def superW : HexGrid := ⟨[(⟨0, 0⟩, "grassland")]⟩

def newW : HexGrid := ⟨[(⟨0, 0⟩, "forest")]⟩

/-- Witness for C3: a concrete one-try success placing a one-cell cluster
east of a one-cell super grid. -/
theorem claim_C3_placement_witness :
    ∃ dq dr,
      superW.isDisjoint (newW.translate dq dr) = true ∧
      superW.touches (newW.translate dq dr) = true ∧
      (∃ p ∈ (newW.translate dq dr).keys, ∃ nb ∈ p.neighbors, nb ∈ superW.keys) ∧
      (⟨[(⟨0, 0⟩, "grassland"), (⟨1, 0⟩, "forest")]⟩ : HexGrid) =
        superW.update (newW.translate dq dr) :=
  claim_C3_placement superW newW [⟨1, 0⟩] [⟨0, 0⟩] constRng 1
    (⟨[(⟨0, 0⟩, "grassland"), (⟨1, 0⟩, "forest")]⟩, ⟨fun _ => 0, 2⟩) (by rfl)

/-- Claim C4: for nonnegative radii, build succeeds and is exactly the
first-wins fold of one generated cluster per meta-position of
spiral(origin, metaRadius) in that order; each meta-position (mq, mr)
yields a cluster centered at (mq * 2 * clusterRadius, mr * 2 * clusterRadius);
and a coordinate already present in the accumulating output grid is never
overwritten by any later cluster. -/
theorem claim_C4_concentric (metaRadius clusterRadius : ℕ) (rng : Rng) :
    build (metaRadius : ℤ) (clusterRadius : ℤ) rng =
      .ok (buildSteps clusterRadius (spiralList ⟨0, 0⟩ metaRadius)
        (HexGrid.empty, rng)) ∧
    (∀ (mh : Hex) (rest : List Hex) (st : HexGrid × Rng),
      buildSteps clusterRadius (mh :: rest) st =
        buildSteps clusterRadius rest
          (mergeFirstWins st.1
            (generateCore ⟨mh.q * (2 * (clusterRadius : ℤ)),
              mh.r * (2 * (clusterRadius : ℤ))⟩ clusterRadius st.2).1,
            (generateCore ⟨mh.q * (2 * (clusterRadius : ℤ)),
              mh.r * (2 * (clusterRadius : ℤ))⟩ clusterRadius st.2).2)) ∧
    (∀ (l1 l2 : List Hex) (st : HexGrid × Rng) (h : Hex) (v : Biome),
      (buildSteps clusterRadius l1 st).1.get h = some v →
      (buildSteps clusterRadius (l1 ++ l2) st).1.get h = some v) := by
  refine ⟨build_coe metaRadius clusterRadius rng, fun mh rest st => rfl, ?_⟩
  intro l1 l2 st h v hv
  rw [buildSteps_append]
  exact buildSteps_get_mono clusterRadius l2 _ h v hv

/-- Witness for C4: with cluster radius 0, the origin cell written by the
first cluster survives the merge of a second cluster at the same spot. -/
theorem claim_C4_concentric_witness :
    (buildSteps 0 ([⟨0, 0⟩] ++ [⟨1, 0⟩]) (HexGrid.empty, constRng)).1.get ⟨0, 0⟩ =
      some "grassland" :=
  (claim_C4_concentric 0 0 constRng).2.2 [⟨0, 0⟩] [⟨1, 0⟩] (HexGrid.empty, constRng)
    ⟨0, 0⟩ "grassland" (by rfl)

/-- Claim C5 as stated is false: the frontier list can repeat a coordinate.
In a buildChain(2, 1, _) run from the all-zero random stream, the frontier
computed for the first non-seed placement (the frontier of the radius-1
seed cluster) contains duplicates, because an empty cell adjacent to two
occupied cells is appended once per occupied neighbor. -/
theorem claim_C5_counterexample :
    ¬ (frontierList (generateCore ⟨0, 0⟩ 1 constRng).1.keys).Nodup := by
  decide

/-- Claim C5 amended: the frontier list contains exactly the coordinates
outside the super grid that are edge-adjacent to it, but with multiplicity:
an unoccupied coordinate occurs once per occupied cell it neighbors (so
the uniform draw over the list weights frontier cells by adjacency count,
rather than uniformly over the set). -/
theorem claim_C5_frontier (ks : List Hex) (nb : Hex) :
    (nb ∈ frontierList ks ↔ nb ∉ ks ∧ ∃ h ∈ ks, nb ∈ h.neighbors) ∧
    ((frontierList ks).count nb =
      if nb ∈ ks then 0
      else (ks.filter (fun h => decide (nb ∈ h.neighbors))).length) :=
  ⟨mem_frontierList ks nb, count_frontierList ks nb⟩

/-- Claim C6 as stated is false for spiral: a negative radius does not
raise the invalid-argument error; the loop over range(0, radius+1) is
empty and spiral silently returns the empty list. -/
theorem claim_C6_counterexample : spiral ⟨0, 0⟩ (-1) = .ok [] :=
  spiral_neg ⟨0, 0⟩ (-1) (by norm_num)

/-- Claim C6 amended: ring, generate, and build (for each of its two radii)
report the invalid-argument error immediately on a negative radius, with
no partial result, and buildChain fails immediately for count below 1;
spiral, however, returns the empty list without an error on a negative
radius. -/
theorem claim_C6_errors (c : Hex) (r count : ℤ) (cr : ℤ) (maxTries : ℕ)
    (rng : Rng) (hr : r < 0) (hc : count < 1) :
    ring c r = .error "radius must be >= 0" ∧
    generate c r rng = .error "radius must be >= 0" ∧
    build r cr rng = .error "meta_radius must be >= 0" ∧
    build 0 r rng = .error "snowflake_radius must be >= 0" ∧
    buildChain count r maxTries rng = .error "count must be >= 1" ∧
    spiral c r = .ok [] :=
  ⟨ring_neg c r hr, generate_neg c r rng hr, build_meta_neg r cr rng hr,
   build_cluster_neg 0 r rng (by omega) hr,
   buildChain_count_low count r maxTries rng hc, spiral_neg c r hr⟩

/-- Witness for C6 at radius -1 and count 0. -/
theorem claim_C6_errors_witness :
    ring ⟨0, 0⟩ (-1) = .error "radius must be >= 0" ∧
    generate ⟨0, 0⟩ (-1) constRng = .error "radius must be >= 0" ∧
    build (-1) 2 constRng = .error "meta_radius must be >= 0" ∧
    build 0 (-1) constRng = .error "snowflake_radius must be >= 0" ∧
    buildChain 0 (-1) 5000 constRng = .error "count must be >= 1" ∧
    spiral ⟨0, 0⟩ (-1) = .ok [] :=
  claim_C6_errors ⟨0, 0⟩ (-1) 0 2 5000 constRng (by norm_num) (by norm_num)

/-- Claim C9: buildChain with count 1 returns, for every radius, retry
budget and random-source state, exactly the grid of a single generate call
from the same state, including the final random-source state (so no
placement logic runs and no extra draws happen); in particular the grid
has 7 cells for radius 1. -/
theorem claim_C9_chain_one (radius maxTries : ℕ) (rng : Rng) :
    buildChain 1 (radius : ℤ) maxTries rng = generate ⟨0, 0⟩ (radius : ℤ) rng ∧
    (∀ g rng1, generate ⟨0, 0⟩ (radius : ℤ) rng = .ok (g, rng1) →
      radius = 1 → g.size = 7) := by
  refine ⟨buildChain_one radius maxTries rng, ?_⟩
  intro g rng1 hg h1
  rw [generate_coe] at hg
  have hpair : g = (generateCore ⟨0, 0⟩ radius rng).1 := by
    have := congrArg (fun e => match e with | Except.ok p => p.1 | _ => g) hg
    simpa using this.symm
  subst h1
  rw [hpair, generateCore_size]

/-- Witness for C9: radius 1 with the all-zero stream yields the same
7-cell grid from both entry points. -/
theorem claim_C9_chain_one_witness :
    buildChain 1 (1 : ℤ) 5000 constRng = generate ⟨0, 0⟩ (1 : ℤ) constRng ∧
    ((generateCore ⟨0, 0⟩ 1 constRng).1).size = 7 :=
  ⟨(claim_C9_chain_one 1 5000 constRng).1,
   (claim_C9_chain_one 1 5000 constRng).2 (generateCore ⟨0, 0⟩ 1 constRng).1
     (generateCore ⟨0, 0⟩ 1 constRng).2 (by rfl) rfl⟩

/-- Claim C7 as stated is false: Hex.neighbor does not fail on every index
outside 0..5. Python tuple indexing accepts negative indices down to -6,
wrapping from the back: neighbor(-1) succeeds and returns the south-east
neighbor (direction index 5), instead of failing. -/
theorem claim_C7_counterexample :
    Hex.neighbor ⟨0, 0⟩ (-1) = some ⟨0, 1⟩ := rfl

/-- Claim C7 amended: neighbor(i) returns the coordinate offset by the
direction vector at index i for 0 <= i <= 5, returns the offset by the
direction vector at index i + 6 for -6 <= i <= -1 (Python negative-index
wraparound), and fails only for i > 5 or i < -6. -/
theorem claim_C7_neighbor (h : Hex) (i : ℤ) :
    Hex.neighbor h i =
      if 0 ≤ i ∧ i < 6 then
        some ⟨h.q + (dirAt i.toNat).1, h.r + (dirAt i.toNat).2⟩
      else if -6 ≤ i ∧ i < 0 then
        some ⟨h.q + (dirAt (i + 6).toNat).1, h.r + (dirAt (i + 6).toNat).2⟩
      else none := by
  unfold Hex.neighbor pyGet
  have hlen : ((DIRS.length : ℤ)) = 6 := rfl
  by_cases h1 : 0 ≤ i
  · rw [if_pos h1, DIRS_getq]
    by_cases h2 : i < 6
    · rw [if_pos (show i.toNat < 6 by omega), if_pos ⟨h1, h2⟩]
      rfl
    · rw [if_neg (show ¬i.toNat < 6 by omega), if_neg (fun hh => h2 hh.2),
        if_neg (show ¬(-6 ≤ i ∧ i < 0) by omega)]
      rfl
  · rw [if_neg h1, hlen]
    by_cases h2 : 0 ≤ i + 6
    · rw [if_pos h2, DIRS_getq, if_pos (show (i + 6).toNat < 6 by omega),
        if_neg (fun hh => h1 hh.1), if_pos ⟨by omega, by omega⟩]
      rfl
    · rw [if_neg h2, if_neg (fun hh => h1 hh.1),
        if_neg (show ¬(-6 ≤ i ∧ i < 0) by omega)]
      rfl
